import Mathlib

/-!
Verification of the resampling, frame-pacing and session-lifecycle logic of
the AVR ⇄ Gemini speech-to-speech bridge (`index.js`).

Byte buffers (Node `Buffer`) are modelled as `List Nat`; each entry stands
for one byte.  Genuine byte values are `< 256`; the decoding helpers reduce
entries `% 256`, which is a no-op on genuine byte values, so the model is
total on `List Nat`.

Fallible buffer reads (`Buffer.readInt16LE` throws `ERR_OUT_OF_RANGE` when
`offset + 2 > length`) are modelled with `Option`: `none` is the thrown
exception.  The JS floating-point arithmetic in the interpolation
(`Math.round(current + (next - current) * j/2)`) is exact for the values
involved (16-bit integers and halves), so it is rendered over `ℚ` with
`Math.round x = ⌊x + 1/2⌋`.
-/

namespace AvrGemini

/-- One 16-bit little-endian signed read, `Buffer.readInt16LE(off)`.
Returns `none` when the read would run past the end of the buffer (Node
throws `ERR_OUT_OF_RANGE` there).  Bytes are reduced `% 256` (no-op for
genuine byte values). -/
def decodeInt16 (lo hi : Nat) : Int :=
  let u : Nat := lo % 256 + 256 * (hi % 256)
  if u < 32768 then (u : Int) else (u : Int) - 65536

def readInt16LE (b : List Nat) (off : Nat) : Option Int :=
  if off + 2 ≤ b.length then some (decodeInt16 (b.getD off 0) (b.getD (off + 1) 0))
  else none

/-- The two bytes `Buffer.writeInt16LE(x, ·)` stores, for `x` in the signed
16-bit range (the only values the source ever writes). -/
def int16LEBytes (x : Int) : List Nat :=
  let u : Nat := (x % 65536).toNat
  [u % 256, u / 256]

/-- Total sample accessor: the 16-bit sample of `b` starting at byte `2*i`.
Agrees with `readInt16LE b (i*2)` whenever that read is in bounds. -/
def sampleAtD (b : List Nat) (i : Nat) : Int :=
  decodeInt16 (b.getD (i * 2) 0) (b.getD (i * 2 + 1) 0)

/-- `Math.max(-32768, Math.min(32767, x))` — the clamp in `upsample8kTo16k`. -/
def clamp16 (x : Int) : Int := max (-32768) (min 32767 x)

/-- JS `Math.round` on the exact (dyadic-rational) values produced by the
interpolation: round half toward `+∞`. -/
def jsRound (q : ℚ) : Int := ⌊q + 1 / 2⌋

/-- `Math.round(currentSample + (nextSample - currentSample) * (j / upsamplingFactor))`
with `upsamplingFactor = 2` (index.js line 50–52). -/
def interpValue (cur next : Int) (j : Nat) : Int :=
  jsRound ((cur : ℚ) + ((next : ℚ) - (cur : ℚ)) * ((j : ℚ) / 2))

/-- Sequential emission of the bytes written by iterations `0, …, m-1` of a
`for` loop whose iteration `i` writes the block `f i` at strictly increasing
output offsets.  `none` propagates a thrown exception from the first failing
iteration, exactly as a JS `for` loop aborts. -/
def loopConcat (f : Nat → Option (List Nat)) : Nat → Option (List Nat)
  | 0 => some []
  | m + 1 => do
    let pre ← loopConcat f m
    let blk ← f m
    some (pre ++ blk)

/-- Iteration `i` of the main loop of `upsample8kTo16k` (index.js lines 43–57):
read `currentSample` at byte `i*2` and `nextSample` at byte `(i+1)*2`, then
for `j = 0, 1` write the clamped interpolated sample.  Iteration `i` writes
its two samples at byte offsets `(i*2+j)*2`, i.e. the blocks of successive
iterations are laid out contiguously in order, which the concatenation
renders faithfully. -/
def upsampleIter (b : List Nat) (i : Nat) : Option (List Nat) := do
  let currentSample ← readInt16LE b (i * 2)
  let nextSample ← readInt16LE b ((i + 1) * 2)
  some ((List.range 2).flatMap fun j =>
    int16LEBytes (clamp16 (interpValue currentSample nextSample j)))

/-- `upsample8kTo16k` (index.js lines 26–67).
* `inputSampleCount = length / 2` is a JS float, so `inputSampleCount < 2`
  is exactly `length < 4`;
* the main loop runs over integers `i` with `i < length/2 - 1`, that is
  `(length - 1) / 2` iterations (`⌈(length-2)/2⌉`);
* after the loop, `lastSample` is read at byte
  `(inputSampleCount - 1) * 2 = length - 2` and written to the final two
  sample slots.  The writes of the loop and the trailing writes fill the
  output buffer contiguously in order, so the output is their concatenation. -/
def upsample8kTo16k (audioBuffer : List Nat) : Option (List Nat) :=
  if audioBuffer.length = 0 then some []
  else if audioBuffer.length < 4 then some audioBuffer
  else do
    let main ← loopConcat (upsampleIter audioBuffer) ((audioBuffer.length - 1) / 2)
    let lastSample ← readInt16LE audioBuffer (audioBuffer.length - 2)
    some (main ++ (List.range 2).flatMap fun _ => int16LEBytes lastSample)

/-- Iteration `i` of the loop of `downsample24kTo8k` (index.js lines 90–94):
read the sample at byte `(i * 3) * 2` and write it to output byte `i * 2`. -/
def downsampleIter (b : List Nat) (i : Nat) : Option (List Nat) := do
  let sample ← readInt16LE b (i * 3 * 2)
  some (int16LEBytes sample)

/-- `downsample24kTo8k` (index.js lines 74–97).
* `inputSampleCount < 3` is exactly `length < 6`;
* `outputSampleCount = Math.floor((length/2) / 3)`; since
  `⌊(length/2)/3⌋ = ⌊⌊length/2⌋/3⌋`, Nat division `length / 2 / 3` renders it
  exactly, also for odd lengths. -/
def downsample24kTo8k (audioBuffer : List Nat) : Option (List Nat) :=
  if audioBuffer.length = 0 then some []
  else if audioBuffer.length < 6 then some audioBuffer
  else loopConcat (downsampleIter audioBuffer) (audioBuffer.length / 2 / 3)

/-- The four bytes iteration `i` of the upsampling loop writes (at output
byte offsets `4*i …  4*i+3`). -/
def upsampleBlock (b : List Nat) (i : Nat) : List Nat :=
  (List.range 2).flatMap fun j =>
    int16LEBytes (clamp16 (interpValue (sampleAtD b i) (sampleAtD b (i + 1)) j))

/-! ### Model name normalization (`resolveLiveModel`, index.js lines 110–119)

JS string primitives on the (ASCII) strings involved: `trim`, `toLowerCase`,
`includes`, `startsWith` are rendered at the character-list level. -/

def isJsSpace (c : Char) : Bool :=
  c = ' ' || c = '\t' || c = '\n' || c = '\r' || c = '\x0b' || c = '\x0c'

/-- JS `String.prototype.trim`: strip whitespace from both ends. -/
def jsTrim (s : String) : String :=
  String.mk (((s.data.dropWhile isJsSpace).reverse.dropWhile isJsSpace).reverse)

/-- JS `String.prototype.toLowerCase` (ASCII range). -/
def jsToLower (s : String) : String :=
  String.mk (s.data.map Char.toLower)

/-- Substring search underlying JS `String.prototype.includes`. -/
def listContains (sub : List Char) : List Char → Bool
  | [] => sub.isEmpty
  | c :: rest => sub.isPrefixOf (c :: rest) || listContains sub rest

def jsIncludes (s sub : String) : Bool :=
  listContains sub.data s.data

/-- `resolveLiveModel` (index.js lines 110–119): default on empty/undefined,
map names containing "flash-live" or "native-audio" to canonical Live model
identifiers, and prefix bare names with "models/".  `raw = none` models an
unset `GEMINI_MODEL` environment variable (`raw || ""`). -/
def resolveLiveModel (raw : Option String) : String :=
  let val := jsTrim (raw.getD "")
  if val = "" then "models/gemini-live-2.5-flash-preview"
  else
    let lower := jsToLower val
    if jsIncludes lower "flash-live" then "models/gemini-live-2.5-flash-preview"
    else if jsIncludes lower "native-audio" then
      "models/gemini-2.5-flash-preview-native-audio-dialog"
    else if "models/".data.isPrefixOf lower.data then val
    else "models/" ++ val

/-! ### Stream controller model (`handleAudioStream`, index.js lines 149–324)

One bridging session.  The observable per-session state collects the HTTP
response status/body, the two accumulator FIFOs and their timers, and the
close calls issued to the remote transport.  Event handlers are transcribed
from the registered callbacks; `TransportMode.sdk` is the managed-session
variant (default), `TransportMode.wsRaw` the raw-socket fallback used only
when an explicit WS URL is configured. -/

inductive TransportMode
  | sdk
  | wsRaw
deriving DecidableEq

structure ControllerState where
  httpStatus : Option Nat
  resChunks : List (List Nat)
  resEnded : Bool
  inputTimerStarted : Bool
  outputTimerStarted : Bool
  inputTimerClears : Nat
  outputTimerClears : Nat
  sessionCloseCalls : Nat
  wsCloseCalls : Nat
  initialSilenceSent : Bool
  dataHandlerWired : Bool
  inputAudioBuffer : List Nat
  outputAudioBuffer : List Nat
  sentFrames : List (List Nat)
deriving DecidableEq

def initialControllerState : ControllerState where
  httpStatus := none
  resChunks := []
  resEnded := false
  inputTimerStarted := false
  outputTimerStarted := false
  inputTimerClears := 0
  outputTimerClears := 0
  sessionCloseCalls := 0
  wsCloseCalls := 0
  initialSilenceSent := false
  dataHandlerWired := false
  inputAudioBuffer := []
  outputAudioBuffer := []
  sentFrames := []

/-- The connection phase (index.js lines 197–260): on a connect failure the
catch block runs `res.status(502).end(); return` — no timers are started and
no handlers are wired.  On success, the SDK variant sends one keepalive
silence frame, both `setInterval` timers are started, and the `req` data/end
handlers are installed. -/
def handleAudioStreamSetup (mode : TransportMode) (connectOk : Bool) : ControllerState :=
  if connectOk then
    { initialControllerState with
        inputTimerStarted := true
        outputTimerStarted := true
        initialSilenceSent := match mode with | .sdk => true | .wsRaw => false
        dataHandlerWired := true }
  else
    { initialControllerState with httpStatus := some 502, resEnded := true }

/-- Events a live session reacts to.  `wsMessage none` is an inbound frame on
which `JSON.parse` throws; `wsMessage (some none)` parses but carries none of
the recognized audio fields (`delta`, `audio`, `inlineData.data`);
`wsMessage (some (some bytes))` carries a payload decoding to `bytes`. -/
inductive SessionEvent
  | reqEnd
  | reqError
  | wsClose
  | wsError
  | wsMessage (payload : Option (Option (List Nat)))
  | sdkClose
  | inputTick
  | outputTick

/-- Event handlers of `handleAudioStream`, transcribed per event:
* `reqEnd`/`reqError` (lines 311–323): close the session (SDK) or the raw
  socket — nothing else; no `clearInterval` call appears in these handlers.
* `wsClose`/`wsError` (lines 287–301, raw-socket variant only): clear both
  intervals and end the response.
* `sdkClose` (line 194): the SDK `onclose` callback only logs.
* `wsMessage` (lines 268–283): parse failures and unrecognized payloads are
  caught/skipped; a recognized payload is downsampled and appended to the
  output FIFO (a thrown resampling error would be caught, leaving state
  unchanged).
* `inputTick` (lines 232–252): if ≥ 3200 bytes are queued, slice off exactly
  the first 3200 and hand them to the send path (`sentFrames`); send errors
  are caught and do not affect the FIFO.
* `outputTick` (lines 254–260): if ≥ 320 bytes are queued, slice off exactly
  the first 320 and write them to the response. -/
def stepController (mode : TransportMode) (s : ControllerState) : SessionEvent → ControllerState
  | .reqEnd =>
    match mode with
    | .sdk => { s with sessionCloseCalls := s.sessionCloseCalls + 1 }
    | .wsRaw => { s with wsCloseCalls := s.wsCloseCalls + 1 }
  | .reqError =>
    match mode with
    | .sdk => { s with sessionCloseCalls := s.sessionCloseCalls + 1 }
    | .wsRaw => { s with wsCloseCalls := s.wsCloseCalls + 1 }
  | .wsClose =>
    match mode with
    | .sdk => s
    | .wsRaw =>
      { s with inputTimerClears := s.inputTimerClears + 1
               outputTimerClears := s.outputTimerClears + 1
               resEnded := true }
  | .wsError =>
    match mode with
    | .sdk => s
    | .wsRaw =>
      { s with inputTimerClears := s.inputTimerClears + 1
               outputTimerClears := s.outputTimerClears + 1
               resEnded := true }
  | .sdkClose => s
  | .wsMessage payload =>
    match mode with
    | .sdk => s
    | .wsRaw =>
      match payload with
      | some (some bytes) =>
        match downsample24kTo8k bytes with
        | some resampled => { s with outputAudioBuffer := s.outputAudioBuffer ++ resampled }
        | none => s
      | _ => s
  | .inputTick =>
    if 3200 ≤ s.inputAudioBuffer.length then
      { s with inputAudioBuffer := s.inputAudioBuffer.drop 3200
               sentFrames := s.sentFrames ++ [s.inputAudioBuffer.take 3200] }
    else s
  | .outputTick =>
    if 320 ≤ s.outputAudioBuffer.length then
      { s with outputAudioBuffer := s.outputAudioBuffer.drop 320
               resChunks := s.resChunks ++ [s.outputAudioBuffer.take 320] }
    else s

/-! ### Basic facts about the byte-level helpers -/

theorem decodeInt16_range (lo hi : Nat) :
    -32768 ≤ decodeInt16 lo hi ∧ decodeInt16 lo hi ≤ 32767 := by
  simp only [decodeInt16]
  split <;> omega

theorem int16LEBytes_length (x : Int) : (int16LEBytes x).length = 2 := rfl

theorem readInt16LE_int16LEBytes (x : Int) (rest : List Nat)
    (h1 : -32768 ≤ x) (h2 : x ≤ 32767) :
    readInt16LE (int16LEBytes x ++ rest) 0 = some x := by
  have hu0 : (0 : Int) ≤ x % 65536 := Int.emod_nonneg x (by norm_num)
  have hu1 : x % 65536 < 65536 := Int.emod_lt_of_pos x (by norm_num)
  simp only [int16LEBytes, readInt16LE, decodeInt16, List.cons_append, List.length_cons,
    List.getD_cons_zero, List.getD_cons_succ]
  rw [if_pos (by omega)]
  have huc : (((x % 65536).toNat : Nat) : Int) = x % 65536 := Int.toNat_of_nonneg hu0
  have hult : (x % 65536).toNat < 65536 := by omega
  have e1 : (x % 65536).toNat % 256 % 256 = (x % 65536).toNat % 256 := by omega
  have e2 : (x % 65536).toNat / 256 % 256 = (x % 65536).toNat / 256 :=
    Nat.mod_eq_of_lt (by omega)
  rw [e1, e2, Nat.mod_add_div ((x % 65536).toNat) 256, Option.some_inj]
  split <;> omega

theorem readInt16LE_self (x : Int) (h1 : -32768 ≤ x) (h2 : x ≤ 32767) :
    readInt16LE (int16LEBytes x) 0 = some x := by
  have := readInt16LE_int16LEBytes x [] h1 h2
  rwa [List.append_nil] at this

theorem readInt16LE_sample (b : List Nat) (i : Nat) (h : i * 2 + 2 ≤ b.length) :
    readInt16LE b (i * 2) = some (sampleAtD b i) := by
  simp only [readInt16LE, sampleAtD]
  rw [if_pos h]

theorem sampleAtD_range (b : List Nat) (i : Nat) :
    -32768 ≤ sampleAtD b i ∧ sampleAtD b i ≤ 32767 :=
  decodeInt16_range _ _

theorem readInt16LE_append_left (b₁ b₂ : List Nat) (off : Nat) (h : off + 2 ≤ b₁.length) :
    readInt16LE (b₁ ++ b₂) off = readInt16LE b₁ off := by
  simp only [readInt16LE, List.length_append]
  rw [if_pos (by omega), if_pos h,
    List.getD_append _ _ _ _ (by omega), List.getD_append _ _ _ _ (by omega)]

theorem readInt16LE_append_right (b₁ b₂ : List Nat) (off : Nat) :
    readInt16LE (b₁ ++ b₂) (b₁.length + off) = readInt16LE b₂ off := by
  simp only [readInt16LE, List.length_append]
  by_cases h : off + 2 ≤ b₂.length
  · rw [if_pos (by omega), if_pos h,
      List.getD_append_right _ _ _ _ (by omega), List.getD_append_right _ _ _ _ (by omega)]
    have e1 : b₁.length + off - b₁.length = off := by omega
    have e2 : b₁.length + off + 1 - b₁.length = off + 1 := by omega
    rw [e1, e2]
  · rw [if_neg (by omega), if_neg (by omega)]

theorem readInt16LE_skip2 (y : Int) (rest : List Nat) :
    readInt16LE (int16LEBytes y ++ rest) 2 = readInt16LE rest 0 := by
  have h := readInt16LE_append_right (int16LEBytes y) rest 0
  rwa [int16LEBytes_length y, Nat.add_zero] at h

/-! ### Facts about loop emission -/

theorem loopConcat_eq (f : Nat → Option (List Nat)) (g : Nat → List Nat) (m : Nat)
    (h : ∀ i, i < m → f i = some (g i)) :
    loopConcat f m = some ((List.range m).flatMap g) := by
  induction m with
  | zero => rfl
  | succ m ih =>
    rw [loopConcat, ih (fun i hi => h i (by omega)), h m (by omega)]
    simp [List.range_succ]

theorem loopConcat_none (f : Nat → Option (List Nat)) (m k : Nat)
    (hk : k < m) (hf : f k = none) :
    loopConcat f m = none := by
  induction m with
  | zero => omega
  | succ m ih =>
    rw [loopConcat]
    rcases Nat.lt_succ_iff_lt_or_eq.mp hk with h | h
    · rw [ih h]; rfl
    · subst h
      cases hl : loopConcat f k <;> simp [hf, hl]

theorem length_flatMap_const (g : Nat → List Nat) (c m : Nat) (h : ∀ k, (g k).length = c) :
    ((List.range m).flatMap g).length = m * c := by
  induction m with
  | zero => simp
  | succ m ih =>
    rw [List.range_succ]
    simp only [List.flatMap_append, List.length_append, ih, List.flatMap_cons,
      List.flatMap_nil, List.append_nil, h]
    ring

theorem readInt16LE_flatMap_blocks (g : Nat → List Nat) (c : Nat)
    (hg : ∀ k, (g k).length = c) (m i off : Nat) (hi : i < m) (hoff : off + 2 ≤ c) :
    readInt16LE ((List.range m).flatMap g) (c * i + off) = readInt16LE (g i) off := by
  induction m with
  | zero => omega
  | succ m ih =>
    rw [List.range_succ]
    simp only [List.flatMap_append, List.flatMap_cons, List.flatMap_nil, List.append_nil]
    rcases Nat.lt_succ_iff_lt_or_eq.mp hi with h | h
    · have hlen : ((List.range m).flatMap g).length = m * c := length_flatMap_const g c m hg
      have h1 : c * (i + 1) ≤ c * m := Nat.mul_le_mul_left c (by omega)
      rw [Nat.mul_succ] at h1
      rw [readInt16LE_append_left _ _ _ (by rw [hlen, Nat.mul_comm m c]; omega), ih h]
    · subst h
      have e : c * i + off = ((List.range i).flatMap g).length + off := by
        rw [length_flatMap_const g c i hg, Nat.mul_comm]
      rw [e, readInt16LE_append_right]

/-! ### Clamping and interpolation -/

theorem clamp16_range (x : Int) : -32768 ≤ clamp16 x ∧ clamp16 x ≤ 32767 := by
  unfold clamp16
  omega

theorem clamp16_of_range (x : Int) (h1 : -32768 ≤ x) (h2 : x ≤ 32767) : clamp16 x = x := by
  unfold clamp16
  omega

theorem jsRound_intCast (c : Int) : jsRound (c : ℚ) = c := by
  unfold jsRound
  rw [add_comm, Int.floor_add_int]
  norm_num

theorem interpValue_zero (cur next : Int) : interpValue cur next 0 = cur := by
  unfold interpValue
  norm_num
  exact jsRound_intCast cur

theorem interpValue_same (x : Int) (j : Nat) : interpValue x x j = x := by
  unfold interpValue
  simp only [sub_self, zero_mul, add_zero]
  exact jsRound_intCast x

/-! ### Characterization of `upsample8kTo16k` on even-length buffers -/

theorem upsampleBlock_length (b : List Nat) (i : Nat) : (upsampleBlock b i).length = 4 := rfl

theorem upsampleBlock_eq (b : List Nat) (i : Nat) :
    upsampleBlock b i =
      int16LEBytes (clamp16 (interpValue (sampleAtD b i) (sampleAtD b (i + 1)) 0)) ++
        (int16LEBytes (clamp16 (interpValue (sampleAtD b i) (sampleAtD b (i + 1)) 1)) ++ []) :=
  rfl

theorem upsampleIter_eq (b : List Nat) (i : Nat) (h : (i + 1) * 2 + 2 ≤ b.length) :
    upsampleIter b i = some (upsampleBlock b i) := by
  unfold upsampleIter
  rw [readInt16LE_sample b i (by omega), readInt16LE_sample b (i + 1) h]
  rfl

theorem upsample_eq_some (b : List Nat) (hEven : b.length % 2 = 0) (hLen : 4 ≤ b.length) :
    upsample8kTo16k b =
      some ((List.range (b.length / 2 - 1)).flatMap (upsampleBlock b) ++
        (List.range 2).flatMap fun _ => int16LEBytes (sampleAtD b (b.length / 2 - 1))) := by
  unfold upsample8kTo16k
  rw [if_neg (by omega), if_neg (by omega)]
  have hm : (b.length - 1) / 2 = b.length / 2 - 1 := by omega
  rw [hm, loopConcat_eq _ (upsampleBlock b) _ (fun i hi => upsampleIter_eq b i (by omega))]
  have hlast : readInt16LE b (b.length - 2) = some (sampleAtD b (b.length / 2 - 1)) := by
    have e : b.length - 2 = (b.length / 2 - 1) * 2 := by omega
    rw [e, readInt16LE_sample b _ (by omega)]
  rw [hlast]
  rfl

/-! ### Characterization of `downsample24kTo8k` -/

theorem downsampleIter_eq (b : List Nat) (i : Nat) (h : i * 3 * 2 + 2 ≤ b.length) :
    downsampleIter b i = some (int16LEBytes (sampleAtD b (i * 3))) := by
  unfold downsampleIter
  rw [show i * 3 * 2 = (i * 3) * 2 from rfl, readInt16LE_sample b (i * 3) h]
  rfl

theorem downsample_read_bound (b : List Nat) (i : Nat) (hi : i < b.length / 2 / 3) :
    i * 3 * 2 + 2 ≤ b.length := by
  rw [Nat.div_div_eq_div_mul] at hi
  have h1 : (i + 1) * 6 ≤ b.length / 6 * 6 := Nat.mul_le_mul_right 6 (by omega)
  have h2 : b.length / 6 * 6 ≤ b.length := Nat.div_mul_le_self b.length 6
  omega

theorem downsample_eq_some (b : List Nat) (hLen : 6 ≤ b.length) :
    downsample24kTo8k b =
      some ((List.range (b.length / 2 / 3)).flatMap fun i => int16LEBytes (sampleAtD b (i * 3))) := by
  unfold downsample24kTo8k
  rw [if_neg (by omega), if_neg (by omega)]
  exact loopConcat_eq _ _ _ fun i hi => downsampleIter_eq b i (downsample_read_bound b i hi)

/-! ### Claim theorems: resampler -/

/-- Claim C1: upsampling an empty buffer yields an empty buffer; a buffer of
fewer than 2 samples (fewer than 4 bytes) is returned unchanged; and for
every even-length buffer of at least 2 samples the output byte length is
exactly twice the input byte length. -/
theorem upsample_length_spec (b : List Nat) :
    upsample8kTo16k [] = some [] ∧
    (b.length < 4 → upsample8kTo16k b = some b) ∧
    (b.length % 2 = 0 → 4 ≤ b.length →
      ∃ out, upsample8kTo16k b = some out ∧ out.length = 2 * b.length) := by
  refine ⟨rfl, ?_, ?_⟩
  · intro h
    unfold upsample8kTo16k
    by_cases h0 : b.length = 0
    · rw [if_pos h0, List.length_eq_zero.mp h0]
    · rw [if_neg h0, if_pos h]
  · intro hEven hLen
    refine ⟨_, upsample_eq_some b hEven hLen, ?_⟩
    rw [List.length_append, length_flatMap_const _ 4 _ (fun k => upsampleBlock_length b k),
      length_flatMap_const _ 2 _ (fun _ => int16LEBytes_length _)]
    omega

theorem upsample_length_spec_witness :
    upsample8kTo16k [9] = some [9] ∧ (upsample8kTo16k [1, 2, 3, 4]).isSome = true := by
  refine ⟨(upsample_length_spec [9]).2.1 (by decide), ?_⟩
  obtain ⟨out, hout, hlen⟩ := (upsample_length_spec [1, 2, 3, 4]).2.2 (by decide) (by decide)
  rw [hout]
  rfl

/-- Claim C3: downsampling an empty buffer yields an empty buffer; a buffer of
fewer than 3 samples (fewer than 6 bytes) is returned unchanged; and for every
even-length buffer of `n ≥ 3` samples the output holds exactly `⌊n / 3⌋`
samples, the `i`-th being input sample `i * 3` (the rest are discarded). -/
theorem downsample_spec (b : List Nat) :
    downsample24kTo8k [] = some [] ∧
    (b.length < 6 → downsample24kTo8k b = some b) ∧
    (b.length % 2 = 0 → 6 ≤ b.length →
      ∃ out, downsample24kTo8k b = some out ∧
        out.length = b.length / 2 / 3 * 2 ∧
        ∀ i, i < b.length / 2 / 3 →
          readInt16LE out (i * 2) = readInt16LE b (i * 3 * 2)) := by
  refine ⟨rfl, ?_, ?_⟩
  · intro h
    unfold downsample24kTo8k
    by_cases h0 : b.length = 0
    · rw [if_pos h0, List.length_eq_zero.mp h0]
    · rw [if_neg h0, if_pos h]
  · intro _ hLen
    refine ⟨_, downsample_eq_some b hLen, ?_, ?_⟩
    · rw [length_flatMap_const _ 2 _ (fun _ => int16LEBytes_length _)]
    · intro i hi
      have e : i * 2 = 2 * i + 0 := by omega
      rw [e, readInt16LE_flatMap_blocks _ 2 (fun _ => int16LEBytes_length _) _ i 0 hi (by omega)]
      have hrange := sampleAtD_range b (i * 3)
      rw [readInt16LE_self _ hrange.1 hrange.2,
        show i * 3 * 2 = (i * 3) * 2 from rfl,
        readInt16LE_sample b (i * 3) (downsample_read_bound b i hi)]

theorem downsample_spec_witness :
    downsample24kTo8k [4, 0] = some [4, 0] ∧
    readInt16LE [9, 0] (0 * 2) = readInt16LE [9, 0, 8, 0, 7, 0] (0 * 3 * 2) := by
  refine ⟨(downsample_spec [4, 0]).2.1 (by decide), ?_⟩
  obtain ⟨out, hout, hlen, hsel⟩ := (downsample_spec [9, 0, 8, 0, 7, 0]).2.2 (by decide) (by decide)
  have hcomp : downsample24kTo8k [9, 0, 8, 0, 7, 0] = some [9, 0] := by decide
  rw [hcomp] at hout
  have e : [9, 0] = out := Option.some_inj.mp hout
  rw [e]
  exact hsel 0 (by decide)

/-- Upsampling a buffer of two identical samples `[x, x]` reproduces `x` in
all four output slots. -/
theorem upsample_const_pair (x : Int) (h1 : -32768 ≤ x) (h2 : x ≤ 32767) :
    upsample8kTo16k (int16LEBytes x ++ int16LEBytes x) =
      some (int16LEBytes x ++ int16LEBytes x ++ int16LEBytes x ++ int16LEBytes x) := by
  have hb : (int16LEBytes x ++ int16LEBytes x).length = 4 := by
    rw [List.length_append, int16LEBytes_length x]
  have h0 : sampleAtD (int16LEBytes x ++ int16LEBytes x) 0 = x := by
    have ha := readInt16LE_sample (int16LEBytes x ++ int16LEBytes x) 0 (by rw [hb]; omega)
    have hc := readInt16LE_int16LEBytes x (int16LEBytes x) h1 h2
    exact Option.some_inj.mp (ha.symm.trans hc)
  have h1v : sampleAtD (int16LEBytes x ++ int16LEBytes x) 1 = x := by
    have ha := readInt16LE_sample (int16LEBytes x ++ int16LEBytes x) 1 (by rw [hb])
    have hre := readInt16LE_append_right (int16LEBytes x) (int16LEBytes x) 0
    rw [int16LEBytes_length x, readInt16LE_self x h1 h2] at hre
    exact Option.some_inj.mp (ha.symm.trans hre)
  have h := upsample_eq_some (int16LEBytes x ++ int16LEBytes x) (by rw [hb]) (by rw [hb])
  rw [hb] at h
  rw [h]
  simp [show (4 : Nat) / 2 - 1 = 1 from rfl, List.range_succ, upsampleBlock_eq, h0, h1v,
    interpValue_zero, interpValue_same, clamp16_of_range x h1 h2]

/-- Claim C2: for every even-length buffer of at least 2 samples, each
adjacent input pair `(s i, s (i+1))` yields output samples
`clamp16 (round (s i + (s (i+1) - s i) * j/2))` for `j = 0, 1` at output
sample positions `2*i + j`, and the final input sample is repeated at the
last two output positions; a two-sample buffer `[x, x]` upsample yields four
samples all equal to `x`. -/
theorem upsample_values_spec (b : List Nat) (x : Int) :
    (b.length % 2 = 0 → 4 ≤ b.length →
      ∃ out, upsample8kTo16k b = some out ∧
        (∀ i j cur next, (i + 1) * 2 + 2 ≤ b.length → j < 2 →
          readInt16LE b (i * 2) = some cur →
          readInt16LE b ((i + 1) * 2) = some next →
          readInt16LE out ((i * 2 + j) * 2) = some (clamp16 (interpValue cur next j))) ∧
        (∀ last, readInt16LE b (b.length - 2) = some last →
          readInt16LE out ((b.length / 2 - 1) * 2 * 2) = some last ∧
          readInt16LE out (((b.length / 2 - 1) * 2 + 1) * 2) = some last)) ∧
    (-32768 ≤ x → x ≤ 32767 →
      upsample8kTo16k (int16LEBytes x ++ int16LEBytes x) =
        some (int16LEBytes x ++ int16LEBytes x ++ int16LEBytes x ++ int16LEBytes x)) := by
  constructor
  · intro hEven hLen
    refine ⟨_, upsample_eq_some b hEven hLen, ?_, ?_⟩
    · intro i j cur next hij hj hcur hnext
      have hci : cur = sampleAtD b i := by
        rw [readInt16LE_sample b i (by omega)] at hcur
        exact (Option.some_inj.mp hcur).symm
      have hni : next = sampleAtD b (i + 1) := by
        rw [readInt16LE_sample b (i + 1) (by omega)] at hnext
        exact (Option.some_inj.mp hnext).symm
      subst hci hni
      have hiLt : i < b.length / 2 - 1 := by omega
      have e : (i * 2 + j) * 2 = 4 * i + 2 * j := by ring
      rw [e, readInt16LE_append_left _ _ _ (by
          rw [length_flatMap_const _ 4 _ (fun k => upsampleBlock_length b k)]
          have h4 : (i + 1) * 4 ≤ (b.length / 2 - 1) * 4 := Nat.mul_le_mul_right 4 (by omega)
          omega),
        readInt16LE_flatMap_blocks (upsampleBlock b) 4
          (fun k => upsampleBlock_length b k) _ i (2 * j) hiLt (by omega),
        upsampleBlock_eq]
      interval_cases j
      · have hr := clamp16_range (interpValue (sampleAtD b i) (sampleAtD b (i + 1)) 0)
        exact readInt16LE_int16LEBytes _ _ hr.1 hr.2
      · have hr := clamp16_range (interpValue (sampleAtD b i) (sampleAtD b (i + 1)) 1)
        have e2 : (2 : Nat) * 1 =
            (int16LEBytes (clamp16 (interpValue (sampleAtD b i) (sampleAtD b (i + 1)) 0))).length
              + 0 := by
          rw [int16LEBytes_length]
        rw [e2, readInt16LE_append_right]
        exact readInt16LE_int16LEBytes _ _ hr.1 hr.2
    · intro last hlastRead
      have hlv : last = sampleAtD b (b.length / 2 - 1) := by
        have e : b.length - 2 = (b.length / 2 - 1) * 2 := by omega
        rw [e, readInt16LE_sample b _ (by omega)] at hlastRead
        exact (Option.some_inj.mp hlastRead).symm
      subst hlv
      have hr := sampleAtD_range b (b.length / 2 - 1)
      have htail : ((List.range 2).flatMap fun _ => int16LEBytes (sampleAtD b (b.length / 2 - 1)))
          = int16LEBytes (sampleAtD b (b.length / 2 - 1)) ++
            (int16LEBytes (sampleAtD b (b.length / 2 - 1)) ++ []) := rfl
      constructor
      · have e : (b.length / 2 - 1) * 2 * 2 =
            ((List.range (b.length / 2 - 1)).flatMap (upsampleBlock b)).length + 0 := by
          rw [length_flatMap_const _ 4 _ (fun k => upsampleBlock_length b k)]
          ring
        rw [e, readInt16LE_append_right, htail]
        exact readInt16LE_int16LEBytes _ _ hr.1 hr.2
      · have e : ((b.length / 2 - 1) * 2 + 1) * 2 =
            ((List.range (b.length / 2 - 1)).flatMap (upsampleBlock b)).length + 2 := by
          rw [length_flatMap_const _ 4 _ (fun k => upsampleBlock_length b k)]
          ring
        rw [e, readInt16LE_append_right, htail, readInt16LE_skip2]
        exact readInt16LE_int16LEBytes _ _ hr.1 hr.2
  · exact fun hx1 hx2 => upsample_const_pair x hx1 hx2

theorem upsample_values_spec_witness :
    upsample8kTo16k [5, 0, 5, 0] = some [5, 0, 5, 0, 5, 0, 5, 0] ∧
    readInt16LE [5, 0, 5, 0, 5, 0, 5, 0] ((0 * 2 + 1) * 2) = some 5 := by
  have happ : upsample8kTo16k [5, 0, 5, 0] = some [5, 0, 5, 0, 5, 0, 5, 0] :=
    (upsample_values_spec [5, 0, 5, 0] 5).2 (by decide) (by decide)
  refine ⟨happ, ?_⟩
  obtain ⟨out, hout, hpairs, hlast⟩ :=
    (upsample_values_spec [5, 0, 5, 0] 5).1 (by decide) (by decide)
  have h01 := hpairs 0 1 5 5 (by decide) (by decide) (by decide) (by decide)
  have hval : clamp16 (interpValue 5 5 1) = 5 := by
    rw [interpValue_same 5 1]
    exact clamp16_of_range 5 (by decide) (by decide)
  rw [hval] at h01
  rw [happ] at hout
  rw [Option.some_inj.mp hout]
  exact h01

/-- Claim C10: upsampling is lossless at the original sample points — output
sample `2*i` equals input sample `i` for every sample of an even-length
buffer of at least 2 samples. -/
theorem upsample_lossless (b : List Nat) (hEven : b.length % 2 = 0) (hLen : 4 ≤ b.length) :
    ∃ out, upsample8kTo16k b = some out ∧
      ∀ i, i * 2 + 2 ≤ b.length → readInt16LE out (i * 2 * 2) = readInt16LE b (i * 2) := by
  refine ⟨_, upsample_eq_some b hEven hLen, ?_⟩
  intro i hi
  rcases Nat.lt_or_ge i (b.length / 2 - 1) with h | h
  · have e : i * 2 * 2 = 4 * i + 0 := by ring
    rw [e, readInt16LE_append_left _ _ _ (by
        rw [length_flatMap_const _ 4 _ (fun k => upsampleBlock_length b k)]
        have h4 : (i + 1) * 4 ≤ (b.length / 2 - 1) * 4 := Nat.mul_le_mul_right 4 (by omega)
        omega),
      readInt16LE_flatMap_blocks (upsampleBlock b) 4
        (fun k => upsampleBlock_length b k) _ i 0 h (by omega),
      upsampleBlock_eq]
    have hr := clamp16_range (interpValue (sampleAtD b i) (sampleAtD b (i + 1)) 0)
    rw [readInt16LE_int16LEBytes _ _ hr.1 hr.2, interpValue_zero]
    have hsr := sampleAtD_range b i
    rw [clamp16_of_range _ hsr.1 hsr.2, readInt16LE_sample b i (by omega)]
  · have hieq : i = b.length / 2 - 1 := by omega
    subst hieq
    have e : (b.length / 2 - 1) * 2 * 2 =
        ((List.range (b.length / 2 - 1)).flatMap (upsampleBlock b)).length + 0 := by
      rw [length_flatMap_const _ 4 _ (fun k => upsampleBlock_length b k)]
      ring
    rw [e, readInt16LE_append_right,
      show ((List.range 2).flatMap fun _ => int16LEBytes (sampleAtD b (b.length / 2 - 1)))
          = int16LEBytes (sampleAtD b (b.length / 2 - 1)) ++
            (int16LEBytes (sampleAtD b (b.length / 2 - 1)) ++ []) from rfl]
    have hr := sampleAtD_range b (b.length / 2 - 1)
    rw [readInt16LE_int16LEBytes _ _ hr.1 hr.2, readInt16LE_sample b _ (by omega)]

theorem upsample_lossless_witness :
    readInt16LE [5, 0, 5, 0, 5, 0, 5, 0] (1 * 2 * 2) = readInt16LE [5, 0, 5, 0] (1 * 2) := by
  obtain ⟨out, hout, h⟩ := upsample_lossless [5, 0, 5, 0] (by decide) (by decide)
  have hpair : upsample8kTo16k [5, 0, 5, 0] = some [5, 0, 5, 0, 5, 0, 5, 0] :=
    upsample_const_pair 5 (by decide) (by decide)
  rw [hpair] at hout
  rw [Option.some_inj.mp hout]
  exact h 1 (by decide)

/-- Counterexample to claim C4 as stated: on the 5-byte (odd-length) buffer
the upsampling loop's second read runs past the end of the buffer, which in
Node throws `ERR_OUT_OF_RANGE` (modelled as `none`). -/
theorem upsample_odd_throws : upsample8kTo16k [0, 0, 0, 0, 0] = none := by decide

/-- Claim C4 (amended): both resamplers are deterministic pure functions;
`downsample24kTo8k` returns without error on every buffer, and
`upsample8kTo16k` returns without error on every even-length buffer and every
buffer shorter than 4 bytes, but raises an out-of-bounds read error on every
odd-length buffer of at least 5 bytes. -/
theorem resampler_totality (b : List Nat) :
    (downsample24kTo8k b).isSome = true ∧
    (b.length % 2 = 0 → (upsample8kTo16k b).isSome = true) ∧
    (b.length < 4 → (upsample8kTo16k b).isSome = true) ∧
    (b.length % 2 = 1 → 5 ≤ b.length → upsample8kTo16k b = none) := by
  refine ⟨?_, ?_, ?_, ?_⟩
  · by_cases h : b.length < 6
    · by_cases h0 : b.length = 0
      · unfold downsample24kTo8k
        rw [if_pos h0]
        rfl
      · unfold downsample24kTo8k
        rw [if_neg h0, if_pos h]
        rfl
    · rw [downsample_eq_some b (by omega)]
      rfl
  · intro hEven
    by_cases h0 : b.length = 0
    · unfold upsample8kTo16k
      rw [if_pos h0]
      rfl
    · by_cases h4 : b.length < 4
      · unfold upsample8kTo16k
        rw [if_neg h0, if_pos h4]
        rfl
      · rw [upsample_eq_some b hEven (by omega)]
        rfl
  · intro h4
    by_cases h0 : b.length = 0
    · unfold upsample8kTo16k
      rw [if_pos h0]
      rfl
    · unfold upsample8kTo16k
      rw [if_neg h0, if_pos h4]
      rfl
  · intro hOdd hLen
    unfold upsample8kTo16k
    rw [if_neg (by omega), if_neg (by omega)]
    have hk : upsampleIter b ((b.length - 3) / 2) = none := by
      unfold upsampleIter
      rw [readInt16LE_sample b _ (by omega)]
      have e : ((b.length - 3) / 2 + 1) * 2 = b.length - 1 := by omega
      rw [e]
      unfold readInt16LE
      rw [if_neg (by omega)]
      rfl
    rw [loopConcat_none _ _ ((b.length - 3) / 2) (by omega) hk]
    rfl

theorem resampler_totality_witness :
    (downsample24kTo8k [1, 2, 3, 4, 5, 6, 7, 8]).isSome = true ∧
    (upsample8kTo16k [1, 2, 3, 4, 5, 6]).isSome = true ∧
    (upsample8kTo16k [1, 2]).isSome = true ∧
    upsample8kTo16k [0, 0, 0, 0, 0, 0, 0] = none :=
  ⟨(resampler_totality [1, 2, 3, 4, 5, 6, 7, 8]).1,
   (resampler_totality [1, 2, 3, 4, 5, 6]).2.1 (by decide),
   (resampler_totality [1, 2]).2.2.1 (by decide),
   (resampler_totality [0, 0, 0, 0, 0, 0, 0]).2.2.2 (by decide) (by decide)⟩

/-! ### Claim theorems: accumulators, lifecycle, transport fallback -/

/-- Claim C5: on every tick of either accumulator, if the FIFO holds at least
`frameSize` bytes (3200 uplink, 320 downlink) then exactly the first
`frameSize` bytes are removed and emitted as one frame and the remainder
stays queued; below the threshold nothing is emitted and the FIFO is
unchanged; at most one frame is emitted per tick, and
`frame ++ remainder = queue` (no byte dropped or reordered). -/
theorem accumulator_tick_spec (mode : TransportMode) (s : ControllerState) :
    (3200 ≤ s.inputAudioBuffer.length →
      stepController mode s .inputTick =
        { s with inputAudioBuffer := s.inputAudioBuffer.drop 3200
                 sentFrames := s.sentFrames ++ [s.inputAudioBuffer.take 3200] } ∧
      (s.inputAudioBuffer.take 3200).length = 3200 ∧
      s.inputAudioBuffer.take 3200 ++ s.inputAudioBuffer.drop 3200 = s.inputAudioBuffer) ∧
    (s.inputAudioBuffer.length < 3200 → stepController mode s .inputTick = s) ∧
    (320 ≤ s.outputAudioBuffer.length →
      stepController mode s .outputTick =
        { s with outputAudioBuffer := s.outputAudioBuffer.drop 320
                 resChunks := s.resChunks ++ [s.outputAudioBuffer.take 320] } ∧
      (s.outputAudioBuffer.take 320).length = 320 ∧
      s.outputAudioBuffer.take 320 ++ s.outputAudioBuffer.drop 320 = s.outputAudioBuffer) ∧
    (s.outputAudioBuffer.length < 320 → stepController mode s .outputTick = s) := by
  refine ⟨fun h => ⟨?_, ?_, ?_⟩, fun h => ?_, fun h => ⟨?_, ?_, ?_⟩, fun h => ?_⟩
  · simp only [stepController]
    rw [if_pos h]
  · rw [List.length_take]
    omega
  · exact List.take_append_drop 3200 _
  · simp only [stepController]
    rw [if_neg (by omega)]
  · simp only [stepController]
    rw [if_pos h]
  · rw [List.length_take]
    omega
  · exact List.take_append_drop 320 _
  · simp only [stepController]
    rw [if_neg (by omega)]

theorem accumulator_tick_spec_witness :
    (stepController .sdk
        { initialControllerState with inputAudioBuffer := List.replicate 3200 7 }
        .inputTick).sentFrames = [List.replicate 3200 7] ∧
    stepController .sdk initialControllerState .outputTick = initialControllerState := by
  constructor
  · have h := (accumulator_tick_spec .sdk
      { initialControllerState with inputAudioBuffer := List.replicate 3200 7 }).1
      (by rw [List.length_replicate])
    rw [h.1]
    show [] ++ [(List.replicate 3200 7).take 3200] = [List.replicate 3200 7]
    rw [List.nil_append, List.take_replicate, Nat.min_self]
  · exact (accumulator_tick_spec .sdk initialControllerState).2.2.2 (by decide)

/-- Claim C6 (code-bug exhibit): in the default SDK transport mode, when the
client request stream ends the handler closes the remote session but never
calls `clearInterval` on either accumulator timer (and the SDK `onclose`
callback only logs), so both timers keep running and the response is never
ended — contradicting the claimed cleanup on every termination path. -/
theorem sdk_end_leaves_timers_running :
    (stepController .sdk (stepController .sdk (handleAudioStreamSetup .sdk true) .reqEnd)
        .sdkClose).sessionCloseCalls = 1 ∧
    (stepController .sdk (stepController .sdk (handleAudioStreamSetup .sdk true) .reqEnd)
        .sdkClose).inputTimerClears = 0 ∧
    (stepController .sdk (stepController .sdk (handleAudioStreamSetup .sdk true) .reqEnd)
        .sdkClose).outputTimerClears = 0 ∧
    (stepController .sdk (stepController .sdk (handleAudioStreamSetup .sdk true) .reqEnd)
        .sdkClose).inputTimerStarted = true ∧
    (stepController .sdk (stepController .sdk (handleAudioStreamSetup .sdk true) .reqEnd)
        .sdkClose).outputTimerStarted = true ∧
    (stepController .sdk (stepController .sdk (handleAudioStreamSetup .sdk true) .reqEnd)
        .sdkClose).resEnded = false := by
  decide

/-- Claim C7: if establishing the remote session fails, the controller goes
directly to the terminal state — a 502 response with no body — with neither
accumulator timer started, no data wiring, and no sends performed. -/
theorem connect_failure_spec (mode : TransportMode) :
    handleAudioStreamSetup mode false =
      { initialControllerState with httpStatus := some 502, resEnded := true } ∧
    (handleAudioStreamSetup mode false).httpStatus = some 502 ∧
    (handleAudioStreamSetup mode false).resChunks = [] ∧
    (handleAudioStreamSetup mode false).resEnded = true ∧
    (handleAudioStreamSetup mode false).inputTimerStarted = false ∧
    (handleAudioStreamSetup mode false).outputTimerStarted = false ∧
    (handleAudioStreamSetup mode false).dataHandlerWired = false ∧
    (handleAudioStreamSetup mode false).initialSilenceSent = false ∧
    (handleAudioStreamSetup mode false).sentFrames = [] := by
  cases mode <;> exact ⟨rfl, rfl, rfl, rfl, rfl, rfl, rfl, rfl, rfl⟩

/-- Claim C8: on the raw-socket fallback, an unparseable message or one
without a recognized audio field is skipped — the downlink FIFO and the whole
session state are unchanged — and a later well-formed message is still
processed normally. -/
theorem ws_malformed_message_spec (s : ControllerState) (bytes r : List Nat) :
    stepController .wsRaw s (.wsMessage none) = s ∧
    stepController .wsRaw s (.wsMessage (some none)) = s ∧
    (downsample24kTo8k bytes = some r →
      stepController .wsRaw (stepController .wsRaw s (.wsMessage none))
          (.wsMessage (some (some bytes))) =
        { s with outputAudioBuffer := s.outputAudioBuffer ++ r }) := by
  refine ⟨rfl, rfl, fun h => ?_⟩
  show stepController .wsRaw s (.wsMessage (some (some bytes))) = _
  simp only [stepController, h]

theorem ws_malformed_message_spec_witness :
    stepController .wsRaw initialControllerState (.wsMessage none) = initialControllerState ∧
    stepController .wsRaw (stepController .wsRaw initialControllerState (.wsMessage none))
        (.wsMessage (some (some [9, 0, 8, 0, 7, 0]))) =
      { initialControllerState with outputAudioBuffer := [9, 0] } := by
  refine ⟨(ws_malformed_message_spec initialControllerState [] []).1, ?_⟩
  exact (ws_malformed_message_spec initialControllerState [9, 0, 8, 0, 7, 0] [9, 0]).2.2 (by decide)

/-! ### Claim theorems: model name normalization -/

/-- Counterexample to claim C9 as stated: the input `"models/Foo "` has a
lowercase form that starts with `"models/"` (and contains neither
`"flash-live"` nor `"native-audio"`), yet it is not returned unchanged — the
function returns the trimmed name. -/
theorem resolveLiveModel_not_unchanged :
    "models/".data.isPrefixOf (jsToLower "models/Foo ").data = true ∧
    "models/".data.isPrefixOf (jsToLower (jsTrim "models/Foo ")).data = true ∧
    jsIncludes (jsToLower (jsTrim "models/Foo ")) "flash-live" = false ∧
    jsIncludes (jsToLower (jsTrim "models/Foo ")) "native-audio" = false ∧
    resolveLiveModel (some "models/Foo ") = "models/Foo" ∧
    "models/Foo" ≠ "models/Foo " := by
  decide

/-- Claim C9 (amended): `resolveLiveModel` normalizes the configured name, all
rules applying to the whitespace-trimmed name: empty/whitespace-only (or
unset) yields the default model; a trimmed name whose lowercase form contains
"flash-live" (resp. otherwise "native-audio") maps to the corresponding
canonical identifier; otherwise a trimmed name whose lowercase form starts
with "models/" is returned trimmed but otherwise unchanged, and any other
bare trimmed name is returned prefixed with "models/". -/
theorem resolveLiveModel_spec (raw : String) :
    (jsTrim raw = "" → resolveLiveModel (some raw) = "models/gemini-live-2.5-flash-preview") ∧
    (jsIncludes (jsToLower (jsTrim raw)) "flash-live" = true →
      resolveLiveModel (some raw) = "models/gemini-live-2.5-flash-preview") ∧
    (jsIncludes (jsToLower (jsTrim raw)) "flash-live" = false →
      jsIncludes (jsToLower (jsTrim raw)) "native-audio" = true →
      resolveLiveModel (some raw) = "models/gemini-2.5-flash-preview-native-audio-dialog") ∧
    (jsIncludes (jsToLower (jsTrim raw)) "flash-live" = false →
      jsIncludes (jsToLower (jsTrim raw)) "native-audio" = false →
      "models/".data.isPrefixOf (jsToLower (jsTrim raw)).data = true →
      resolveLiveModel (some raw) = jsTrim raw) ∧
    (jsTrim raw ≠ "" →
      jsIncludes (jsToLower (jsTrim raw)) "flash-live" = false →
      jsIncludes (jsToLower (jsTrim raw)) "native-audio" = false →
      "models/".data.isPrefixOf (jsToLower (jsTrim raw)).data = false →
      resolveLiveModel (some raw) = "models/" ++ jsTrim raw) ∧
    resolveLiveModel none = "models/gemini-live-2.5-flash-preview" := by
  refine ⟨?_, ?_, ?_, ?_, ?_, rfl⟩
  · intro h
    simp only [resolveLiveModel, Option.getD_some]
    rw [if_pos h]
  · intro h
    have hne : jsTrim raw ≠ "" := by
      intro he
      rw [he] at h
      exact absurd h (by decide)
    simp only [resolveLiveModel, Option.getD_some]
    rw [if_neg hne, if_pos h]
  · intro h1 h2
    have hne : jsTrim raw ≠ "" := by
      intro he
      rw [he] at h2
      exact absurd h2 (by decide)
    simp only [resolveLiveModel, Option.getD_some]
    rw [if_neg hne, if_neg (by rw [h1]; decide), if_pos h2]
  · intro h1 h2 h3
    have hne : jsTrim raw ≠ "" := by
      intro he
      rw [he] at h3
      exact absurd h3 (by decide)
    simp only [resolveLiveModel, Option.getD_some]
    rw [if_neg hne, if_neg (by rw [h1]; decide), if_neg (by rw [h2]; decide), if_pos h3]
  · intro hne h1 h2 h3
    simp only [resolveLiveModel, Option.getD_some]
    rw [if_neg hne, if_neg (by rw [h1]; decide), if_neg (by rw [h2]; decide),
      if_neg (by rw [h3]; decide)]

theorem resolveLiveModel_spec_witness :
    resolveLiveModel (some "   ") = "models/gemini-live-2.5-flash-preview" ∧
    resolveLiveModel (some "Gemini-FLASH-LIVE") = "models/gemini-live-2.5-flash-preview" ∧
    resolveLiveModel (some "my-Native-Audio-x") =
      "models/gemini-2.5-flash-preview-native-audio-dialog" ∧
    resolveLiveModel (some " models/Custom ") = "models/Custom" ∧
    resolveLiveModel (some "custom-model") = "models/custom-model" := by
  refine ⟨(resolveLiveModel_spec "   ").1 (by decide),
    (resolveLiveModel_spec "Gemini-FLASH-LIVE").2.1 (by decide),
    (resolveLiveModel_spec "my-Native-Audio-x").2.2.1 (by decide) (by decide),
    ((resolveLiveModel_spec " models/Custom ").2.2.2.1
      (by decide) (by decide) (by decide)).trans (by decide),
    ((resolveLiveModel_spec "custom-model").2.2.2.2.1
      (by decide) (by decide) (by decide) (by decide)).trans (by decide)⟩

end AvrGemini
